import Mathlib

/-!
# GoFind — verification of the scan pipeline (main.go)

Shallow embedding of the GoFind directory scanner. Concurrency plumbing
(goroutines, channels, WaitGroups) is abstracted away: each channel send is
modelled as an element appended to an emission list, each atomic counter as a
natural-number field, and the file system as explicit data (a file is its list
of lines; an open failure is an `Option String` error).
-/

namespace GoFind

/-- Helper for Go `strings.Contains`: does the first list begin the second? -/
def leadsWith : List Char → List Char → Bool
  | [], _ => true
  | _ :: _, [] => false
  | a :: as, b :: bs => a == b && leadsWith as bs

/-- Helper for Go `strings.Contains`: does `pat` occur contiguously in the
second list? -/
def containsSub (pat : List Char) : List Char → Bool
  | [] => pat.isEmpty
  | c :: cs => leadsWith pat (c :: cs) || containsSub pat cs

/-- Go `strings.Contains(s, pat)`: substring containment (true for `pat = ""`). -/
def strContains (s pat : String) : Bool := containsSub pat.data s.data

/-- Go `strings.ToLower` (per-character lowering). -/
def strToLower (s : String) : String := String.mk (s.data.map Char.toLower)

/-- Go `strings.TrimSpace`: drop leading and trailing whitespace. -/
def trimChars (s : String) : String :=
  String.mk (((s.data.dropWhile Char.isWhitespace).reverse.dropWhile
    Char.isWhitespace).reverse)

/-- Model of a compiled Go `*regexp.Regexp`: its source text (`regex.String()`)
and its `FindString` function. `find s` is the leftmost match of the pattern in
`s`; as in Go's `regexp.FindString`, the empty string is returned both when
there is no match and when the leftmost match is empty. -/
structure Regex where
  source : String
  find : String → String

/-- One entry of `file.Keywords` as built by the scan loop, kept structured:
`kw` records a keyword hit (`fmt.Sprintf` with the keyword and the line
number), `re` a regex hit (the matched text, `regex.String()`, and the line
number). -/
inductive Desc where
  | kw (term : String) (line : Nat)
  | re (matched : String) (source : String) (line : Nat)
deriving DecidableEq

/-- Line number carried by a descriptor. -/
def Desc.line : Desc → Nat
  | .kw _ n => n
  | .re _ _ n => n

/-- The per-line body of the read loop in `NewThreadSearchFile` /
`SameThreadSearchFile`: every keyword is tested with `strings.Contains` and
appended on success, then every regex is tested with `FindString` and appended
when the match text is nonempty, all onto the running `file.Keywords`
accumulator. -/
def matchLine (kws : List String) (res : List Regex) (lineText : String)
    (line : Nat) (acc : List Desc) : List Desc :=
  let acc1 := kws.foldl
    (fun a kw => if strContains lineText kw then a ++ [Desc.kw kw line] else a)
    acc
  res.foldl
    (fun a r =>
      let m := r.find lineText
      if m != "" then a ++ [Desc.re m r.source line] else a)
    acc1

/-- The read loop: `line := 1`, incremented once per scanned line; the
accumulator is `file.Keywords` (`hit` in the Go code is true exactly when the
accumulator, started empty, is nonempty at the end). -/
def scanLoop (kws : List String) (res : List Regex) :
    List String → Nat → List Desc → List Desc
  | [], _, acc => acc
  | t :: rest, n, acc => scanLoop kws res rest (n + 1) (matchLine kws res t n acc)

/-- `scanner.Buffer(buf, 1024*1024)`: maximum token (line) length. -/
def maxLineLen : Nat := 1024 * 1024

/-- Message of `bufio.ErrTooLong`. -/
def tooLongMsg : String := "bufio.Scanner: token too long"

/-- A `FoundFile` as sent on the output channel. -/
structure FoundFile where
  FilePath : String
  Keywords : List Desc
deriving DecidableEq

/-- What one call of the file scanner emits: sends on `fileChan` (`results`),
sends on `errChan` (`errors`), and the number of `searchedFiles` increments. -/
structure ScanEffects where
  results : List FoundFile
  errors : List String
  searched : Nat
deriving DecidableEq

/-- `NewThreadSearchFile` (the body of `SameThreadSearchFile` is identical up
to descriptor formatting, see `Desc.formatSameThread`). The file system is
abstracted: `openErr` is the error of `os.OpenFile` (`none` on success) and
`content` the file's lines. `bufio.Scanner` with a 1 MiB buffer yields the
lines up to the first line longer than `maxLineLen`; such a line stops the
loop and makes `scanner.Err()` return `bufio.ErrTooLong`. `searchedFiles` is
incremented right after the loop, before the `Err()` check; on a scan error
the function returns before the `hit` check, so the accumulated matches are
dropped. -/
def searchFile (openErr : Option String) (filePath : String)
    (content : List String) (kws : List String) (res : List Regex) :
    ScanEffects :=
  match openErr with
  | some e => { results := [], errors := [filePath ++ " = " ++ e], searched := 0 }
  | none =>
    let lines := content.takeWhile (fun t => decide (t.length ≤ maxLineLen))
    let found := scanLoop kws res lines 1 []
    if content.all (fun t => decide (t.length ≤ maxLineLen)) then
      if found.isEmpty then { results := [], errors := [], searched := 1 }
      else
        { results := [{ FilePath := trimChars filePath, Keywords := found }],
          errors := [], searched := 1 }
    else
      { results := [],
        errors := [filePath ++ " = " ++ tooLongMsg],
        searched := 1 }

/-- A filesystem entry as handed to the `walkFunc` of `filepath.WalkDir`:
its path, whether it is a directory, and the traversal error (if any). -/
structure Entry where
  path : String
  isDir : Bool
  err : Option String
deriving DecidableEq

/-- The counters `walkFunc` can touch. -/
structure WalkCounters where
  foundFiles : Nat
  numIgnored : Nat
deriving DecidableEq

/-- The `walkFunc` of `NewThreadFileFinder` / `SameThreadFileFinder` on one
entry: a traversal error is forwarded to `errChan`; directories are skipped;
an entry whose lowercased path contains a lowercased ignore string is skipped
(the branch logs and returns, touching no counter); otherwise `foundFiles` is
incremented and the path dispatched for scanning. Returns the updated
counters, the errors emitted, and the paths dispatched. -/
def walkStep (ignored : List String) (c : WalkCounters) (e : Entry) :
    WalkCounters × List String × List String :=
  match e.err with
  | some er => (c, [e.path ++ " = " ++ er], [])
  | none =>
    if e.isDir then (c, [], [])
    else if ignored.any (fun ig => strContains (strToLower e.path) (strToLower ig)) then
      (c, [], [])
    else
      ({ c with foundFiles := c.foundFiles + 1 }, [], [e.path])

/-- `filepath.WalkDir` visiting a list of entries in order. -/
def walkAll (ignored : List String) :
    List Entry → WalkCounters → WalkCounters × List String × List String
  | [], c => (c, [], [])
  | e :: rest, c =>
    let s := walkStep ignored c e
    let s2 := walkAll ignored rest s.1
    (s2.1, s.2.1 ++ s2.2.1, s.2.2 ++ s2.2.2)

/-- The regex-loading loop of `main`: each nonblank trimmed line of the regex
file is passed to `regexp.Compile` (modelled by the `compile` parameter, which
returns `none` exactly when compilation fails and the nil `*regexp.Regexp` is
produced); on failure a diagnostic is printed — but the
`regexs = append(regexs, regex)` line runs in both cases. -/
def loadRegexes (compile : String → Option Regex) (lines : List String) :
    List (Option Regex) :=
  lines.foldl
    (fun acc l =>
      let cleanRE := trimChars l
      if cleanRE = "" then acc else acc ++ [compile cleanRE])
    []

/-- `fmt.Sprintf("%s::%d", kw, line)` — keyword descriptor in
`NewThreadSearchFile` (note the two colons). -/
def kwDescNewThread (kw : String) (line : Nat) : String :=
  kw ++ "::" ++ toString line

/-- `fmt.Sprintf("%s:%d", kw, line)` — keyword descriptor in
`SameThreadSearchFile`. -/
def kwDescSameThread (kw : String) (line : Nat) : String :=
  kw ++ ":" ++ toString line

/-- `fmt.Sprintf("%s:%s:%d", match, regex.String(), line)` — regex descriptor,
identical in both modes. -/
def reDescStr (matched source : String) (line : Nat) : String :=
  matched ++ ":" ++ source ++ ":" ++ toString line

/-- Rendering of a structured descriptor as `NewThreadSearchFile` builds it. -/
def Desc.formatNewThread : Desc → String
  | .kw k n => kwDescNewThread k n
  | .re m s n => reDescStr m s n

/-- Rendering of a structured descriptor as `SameThreadSearchFile` builds it. -/
def Desc.formatSameThread : Desc → String
  | .kw k n => kwDescSameThread k n
  | .re m s n => reDescStr m s n

/-- `FileCollector`'s output line:
`fmt.Sprintf("Path: %s | Keywords: %v\n", path, strings.Join(descs, " & "))`. -/
def fileResultLine (path : String) (descs : List String) : String :=
  "Path: " ++ path ++ " | Keywords: " ++ String.intercalate " & " descs ++ "\n"

/-- Written from the spec's words, for comparison: a keyword-origin descriptor
is "the keyword, a single colon, and the line number". -/
def specKwDescriptor (kw : String) (line : Nat) : String :=
  kw ++ ":" ++ toString line

/-- Written from the spec's words, for comparison: a regex-origin descriptor is
"the matched text, a colon, the pattern source, a colon, and the line number". -/
def specReDescriptor (matched source : String) (line : Nat) : String :=
  matched ++ ":" ++ source ++ ":" ++ toString line

/-- Control state of `doneFunc` (the progress monitor): blocked on
`for done := range doneChan` (`waitRecv`), inside the inner
`for { fmt.Printf(...); time.Sleep(...) }` loop (`render`), or returned
(`exited`). -/
inductive MonState where
  | waitRecv
  | render
  | exited
deriving DecidableEq

/-- Events the orchestrator performs on `doneChan`. -/
inductive DoneEvent where
  | recv (b : Bool)
  | closeChan
deriving DecidableEq

/-- One step of `doneFunc` under a channel event. In `waitRecv`, receiving
`true` breaks out of the range loop and receiving `false` falls through into
the inner render loop; a close ends the range loop. The inner render loop
contains no `break`, no `return` and no channel read, so in `render` every
event leaves the state unchanged. -/
def monStep : MonState → DoneEvent → MonState
  | .waitRecv, .recv true => .exited
  | .waitRecv, .recv false => .render
  | .waitRecv, .closeChan => .exited
  | .render, _ => .render
  | .exited, _ => .exited

/-- `doneFunc` run from its start against a sequence of channel events. -/
def monRun (evs : List DoneEvent) : MonState :=
  evs.foldl monStep .waitRecv

/-- The descriptors one line contributes: the keywords that occur in the line
(in keyword-list order) followed by the regexes whose first match on the line
is nonempty (in pattern-list order). -/
def lineHits (kws : List String) (res : List Regex) (t : String) (n : Nat) :
    List Desc :=
  (kws.filter (fun kw => strContains t kw)).map (fun kw => Desc.kw kw n)
    ++ (res.filter (fun r => r.find t != "")).map
        (fun r => Desc.re (r.find t) r.source n)

/-- The read loop without an accumulator: each line's hits in order. -/
def scanList (kws : List String) (res : List Regex) :
    List String → Nat → List Desc
  | [], _ => []
  | t :: rest, n => lineHits kws res t n ++ scanList kws res rest (n + 1)

lemma kwFold_eq (t : String) (n : Nat) :
    ∀ (kws : List String) (acc : List Desc),
      kws.foldl
        (fun a kw => if strContains t kw then a ++ [Desc.kw kw n] else a) acc
        = acc ++ (kws.filter (fun kw => strContains t kw)).map
            (fun kw => Desc.kw kw n) := by
  intro kws
  induction kws with
  | nil => intro acc; simp
  | cons kw rest ih =>
    intro acc
    by_cases h : strContains t kw
    · simp [List.filter_cons, h, ih]
    · simp [List.filter_cons, h, ih]

lemma reFold_eq (t : String) (n : Nat) :
    ∀ (res : List Regex) (acc : List Desc),
      res.foldl
        (fun a r =>
          let m := r.find t
          if m != "" then a ++ [Desc.re m r.source n] else a) acc
        = acc ++ (res.filter (fun r => r.find t != "")).map
            (fun r => Desc.re (r.find t) r.source n) := by
  intro res
  induction res with
  | nil => intro acc; simp
  | cons r rest ih =>
    intro acc
    rw [List.foldl_cons, ih, List.filter_cons]
    by_cases h : (r.find t != "") = true
    · simp [h, List.append_assoc]
    · simp [h]

lemma matchLine_eq (kws : List String) (res : List Regex) (t : String)
    (n : Nat) (acc : List Desc) :
    matchLine kws res t n acc = acc ++ lineHits kws res t n := by
  unfold matchLine lineHits
  rw [kwFold_eq, reFold_eq, List.append_assoc]

lemma scanLoop_eq_scanList (kws : List String) (res : List Regex) :
    ∀ (ls : List String) (n : Nat) (acc : List Desc),
      scanLoop kws res ls n acc = acc ++ scanList kws res ls n := by
  intro ls
  induction ls with
  | nil => intro n acc; simp [scanLoop, scanList]
  | cons t rest ih =>
    intro n acc
    rw [scanLoop, ih, matchLine_eq, scanList, List.append_assoc]

lemma lineHits_line (kws : List String) (res : List Regex) (t : String)
    (n : Nat) : ∀ d ∈ lineHits kws res t n, d.line = n := by
  intro d hd
  rcases List.mem_append.1 hd with h | h <;>
    obtain ⟨x, _, rfl⟩ := List.mem_map.1 h <;> rfl

lemma scanList_line_ge (kws : List String) (res : List Regex) :
    ∀ (ls : List String) (n : Nat) (d : Desc),
      d ∈ scanList kws res ls n → n ≤ d.line := by
  intro ls
  induction ls with
  | nil => intro n d hd; simp [scanList] at hd
  | cons t rest ih =>
    intro n d hd
    rw [scanList] at hd
    rcases List.mem_append.1 hd with h | h
    · rw [lineHits_line kws res t n d h]
    · exact Nat.le_of_succ_le (ih (n + 1) d h)

lemma chainLe_of_all_eq : ∀ (l : List Nat) (n : Nat), (∀ x ∈ l, x = n) →
    List.Chain' (fun a b => a ≤ b) l := by
  intro l
  induction l with
  | nil => intro n _; simp
  | cons a rest ih =>
    intro n h
    cases rest with
    | nil => simp
    | cons b rest' =>
      rw [List.chain'_cons]
      constructor
      · rw [h a (by simp), h b (by simp)]
      · exact ih n (fun x hx => h x (List.mem_cons_of_mem a hx))

lemma scanList_chain (kws : List String) (res : List Regex) :
    ∀ (ls : List String) (n : Nat),
      List.Chain' (fun a b => a ≤ b) ((scanList kws res ls n).map Desc.line) := by
  intro ls
  induction ls with
  | nil => intro n; simp [scanList]
  | cons t rest ih =>
    intro n
    rw [scanList, List.map_append]
    have hall : ∀ x ∈ (lineHits kws res t n).map Desc.line, x = n := by
      intro x hx
      obtain ⟨d, hd, rfl⟩ := List.mem_map.1 hx
      exact lineHits_line kws res t n d hd
    refine List.Chain'.append (chainLe_of_all_eq _ n hall) (ih (n + 1)) ?_
    intro x hx y hy
    have hx' := hall x (List.mem_of_mem_getLast? hx)
    obtain ⟨d, hd, rfl⟩ := List.mem_map.1 (List.mem_of_mem_head? hy)
    have := scanList_line_ge kws res rest (n + 1) d hd
    omega

lemma scanList_filter (kws : List String) (res : List Regex) :
    ∀ (ls : List String) (n i : Nat), i < ls.length →
      (scanList kws res ls n).filter (fun d => d.line == n + i)
        = lineHits kws res (ls.getD i "") (n + i) := by
  intro ls
  induction ls with
  | nil => intro n i h; simp at h
  | cons t rest ih =>
    intro n i h
    rw [scanList, List.filter_append]
    cases i with
    | zero =>
      have h1 : (lineHits kws res t n).filter (fun d => d.line == n + 0)
          = lineHits kws res t n := by
        rw [List.filter_eq_self]
        intro d hd
        simp [lineHits_line kws res t n d hd]
      have h2 : (scanList kws res rest (n + 1)).filter
          (fun d => d.line == n + 0) = [] := by
        rw [List.filter_eq_nil_iff]
        intro d hd
        have := scanList_line_ge kws res rest (n + 1) d hd
        simp only [beq_iff_eq]
        omega
      rw [h1, h2, List.append_nil]
      rfl
    | succ j =>
      have h1 : (lineHits kws res t n).filter
          (fun d => d.line == n + (j + 1)) = [] := by
        rw [List.filter_eq_nil_iff]
        intro d hd
        have := lineHits_line kws res t n d hd
        simp only [beq_iff_eq]
        omega
      rw [h1, List.nil_append]
      have hj : j < rest.length := by simpa using h
      have := ih (n + 1) j hj
      simp only [show n + (j + 1) = n + 1 + j from by omega]
      rw [this]
      rfl

lemma walkStep_numIgnored (ignored : List String) (c : WalkCounters)
    (e : Entry) : (walkStep ignored c e).1.numIgnored = c.numIgnored := by
  unfold walkStep
  rcases e with ⟨p, d, er⟩
  cases er with
  | some er => rfl
  | none =>
    dsimp only
    split
    · rfl
    · split <;> rfl

lemma loadFold_eq (compile : String → Option Regex) :
    ∀ (lines : List String) (acc : List (Option Regex)),
      lines.foldl
        (fun acc l =>
          let cleanRE := trimChars l
          if cleanRE = "" then acc else acc ++ [compile cleanRE]) acc
        = acc ++ ((lines.map trimChars).filter (fun s => s != "")).map compile := by
  intro lines
  induction lines with
  | nil => intro acc; simp
  | cons l rest ih =>
    intro acc
    rw [List.foldl_cons, ih, List.map_cons, List.filter_cons]
    by_cases h : trimChars l = ""
    · simp [h]
    · simp [h, List.append_assoc]

lemma loadRegexes_eq (compile : String → Option Regex) (lines : List String) :
    loadRegexes compile lines
      = ((lines.map trimChars).filter (fun s => s != "")).map compile := by
  unfold loadRegexes
  rw [loadFold_eq, List.nil_append]

/-- A line one byte over the 1 MiB bound of the scanner's buffer. -/
def longLine : String := String.mk (List.replicate (maxLineLen + 1) 'a')

/-- A file whose first line holds a keyword match and whose second line is
over-long. -/
def demoContent : List String := ["see ERROR here", longLine]

/-- C1: a file whose scan hits the line-length bound (some line longer than
1 MiB) produces exactly one error-channel send and no `FoundFile`, discarding
every match accumulated on earlier lines. -/
theorem searchFile_lineTooLong (filePath : String) (content kws : List String)
    (res : List Regex) (h : ∃ t ∈ content, maxLineLen < t.length) :
    (searchFile none filePath content kws res).errors
        = [filePath ++ " = " ++ tooLongMsg]
    ∧ (searchFile none filePath content kws res).results = [] := by
  obtain ⟨t, ht, hlen⟩ := h
  have hall : content.all (fun t => decide (t.length ≤ maxLineLen)) = false := by
    rw [List.all_eq_false]
    exact ⟨t, ht, by simp; omega⟩
  simp [searchFile, hall]

/-- Witness for C1: a concrete file with a keyword match on line 1 and an
over-long line 2 yields one error and no result. -/
theorem searchFile_lineTooLong_witness :
    (∃ t ∈ demoContent, maxLineLen < t.length)
    ∧ (searchFile none "a.txt" demoContent ["ERROR"] []).errors
        = ["a.txt" ++ " = " ++ tooLongMsg]
    ∧ (searchFile none "a.txt" demoContent ["ERROR"] []).results = [] := by
  have hx : ∃ t ∈ demoContent, maxLineLen < t.length := by
    refine ⟨longLine, by simp [demoContent], ?_⟩
    have hl : longLine.length = maxLineLen + 1 := by
      show (List.replicate (maxLineLen + 1) 'a').length = maxLineLen + 1
      simp
    omega
  exact ⟨hx, (searchFile_lineTooLong "a.txt" demoContent ["ERROR"] [] hx).1,
    (searchFile_lineTooLong "a.txt" demoContent ["ERROR"] [] hx).2⟩

/-- C2: `searchedFiles` is incremented exactly once whenever the read loop
runs (also when a terminal scan error follows the loop), and not at all when
the open fails. -/
theorem searchedFiles_once_per_loop (filePath : String)
    (content kws : List String) (res : List Regex) :
    (searchFile none filePath content kws res).searched = 1
    ∧ ∀ e : String,
        (searchFile (some e) filePath content kws res).searched = 0 := by
  constructor
  · simp only [searchFile]
    split
    · split <;> rfl
    · rfl
  · intro e
    rfl

/-- C3: one scan attempt emits at most one record overall — never both a
`FoundFile` and an error — and any emitted `FoundFile` has a non-empty match
list. -/
theorem scan_single_outcome (openErr : Option String) (filePath : String)
    (content kws : List String) (res : List Regex) :
    (searchFile openErr filePath content kws res).results.length
      + (searchFile openErr filePath content kws res).errors.length ≤ 1
    ∧ (searchFile openErr filePath content kws res).results.all
        (fun f => !f.Keywords.isEmpty) = true := by
  cases openErr with
  | some e => exact ⟨by simp [searchFile], by simp [searchFile]⟩
  | none =>
    simp only [searchFile]
    split
    · split
      · exact ⟨by simp, by simp⟩
      · rename_i hm
        refine ⟨by simp, ?_⟩
        simp only [List.all_cons, List.all_nil, Bool.and_true, Bool.not_eq_true']
        simp only [Bool.not_eq_true] at hm
        exact hm
    · exact ⟨by simp, by simp⟩

/-- C4 (refuting evaluation): `numIgnored` is never incremented by the walk —
not by any entry, in particular not by an entry skipped by the ignore filter.
The concrete conjunct runs the walk on a file whose path matches the ignore
set: the entry is skipped (not dispatched, no error), yet `numIgnored` stays
0. -/
theorem numIgnored_never_incremented :
    (∀ (ignored : List String) (entries : List Entry) (c : WalkCounters),
        (walkAll ignored entries c).1.numIgnored = c.numIgnored)
    ∧ walkAll ["System32"]
        [{ path := "C:/Windows/System32/foo.txt", isDir := false, err := none }]
        { foundFiles := 0, numIgnored := 0 }
        = ({ foundFiles := 0, numIgnored := 0 }, [], []) := by
  constructor
  · intro ignored entries
    induction entries with
    | nil => intro c; rfl
    | cons e rest ih =>
      intro c
      show (walkAll ignored rest (walkStep ignored c e).1).1.numIgnored
        = c.numIgnored
      rw [ih, walkStep_numIgnored]
  · rfl

/-- Model of a `regexp.Compile` that fails exactly on the pattern `(`
(unbalanced parenthesis), returning the nil regex as Go does. -/
def badCompile : String → Option Regex :=
  fun s => if s = "(" then none else some { source := s, find := fun _ => "" }

/-- C5 (refuting): a regex-file line whose compilation fails is NOT dropped —
the nil compilation result reaches the pattern list handed to the scanners.
The concrete conjunct: the single-line regex file `(` yields the pattern list
`[none]`. -/
theorem failedCompile_reaches_scanner :
    (∀ (compile : String → Option Regex) (lines : List String) (l : String),
        l ∈ lines → trimChars l ≠ "" → compile (trimChars l) = none →
        none ∈ loadRegexes compile lines)
    ∧ loadRegexes badCompile ["("] = [none] := by
  constructor
  · intro compile lines l hl hne hc
    rw [loadRegexes_eq, ← hc]
    exact List.mem_map_of_mem compile
      (List.mem_filter.2 ⟨List.mem_map_of_mem trimChars hl, by simp [hne]⟩)
  · rfl

/-- Witness for C5: the failing pattern `(` in a two-line regex file puts a
nil (`none`) entry in the list used by the scan loop. -/
theorem failedCompile_reaches_scanner_witness :
    ("(" ∈ ["(", "ERROR[0-9]+"] ∧ trimChars "(" ≠ ""
        ∧ badCompile (trimChars "(") = none)
    ∧ none ∈ loadRegexes badCompile ["(", "ERROR[0-9]+"] := by
  refine ⟨⟨by simp, by decide, rfl⟩, ?_⟩
  exact (failedCompile_reaches_scanner).1 badCompile ["(", "ERROR[0-9]+"] "("
    (by simp) (by decide) rfl

/-- C6 (refuting evaluation): in newthread mode the keyword descriptor is the
keyword followed by TWO colons and the line number (`%s::%d`), not the single
colon of the spec format; samethread mode and the regex descriptors do follow
the spec format. -/
theorem newthread_keyword_descriptor_double_colon :
    Desc.formatNewThread (Desc.kw "ERROR" 2) = "ERROR::2"
    ∧ Desc.formatNewThread (Desc.kw "ERROR" 2) ≠ specKwDescriptor "ERROR" 2
    ∧ Desc.formatSameThread (Desc.kw "ERROR" 2) = specKwDescriptor "ERROR" 2
    ∧ Desc.formatNewThread (Desc.re "404" "[0-9]+" 5)
        = specReDescriptor "404" "[0-9]+" 5
    ∧ fileResultLine "a.txt" [Desc.formatNewThread (Desc.kw "ERROR" 2)]
        = "Path: a.txt | Keywords: ERROR::2\n" := by
  refine ⟨?_, ?_, ?_, ?_, ?_⟩ <;> decide

/-- C9 (refuting): under the orchestrator's actual event sequence — one send
of `false` followed by closing the channel — the monitor sticks in the inner
render loop; no continuation of events ever moves it to the exited state. -/
theorem monitor_never_exits :
    monRun [DoneEvent.recv false, DoneEvent.closeChan] = MonState.render
    ∧ (∀ evs : List DoneEvent,
        monRun ([DoneEvent.recv false, DoneEvent.closeChan] ++ evs)
          = MonState.render)
    ∧ MonState.render ≠ MonState.exited := by
  have hstick : ∀ evs : List DoneEvent,
      evs.foldl monStep MonState.render = MonState.render := by
    intro evs
    induction evs with
    | nil => rfl
    | cons e rest ih =>
      rw [List.foldl_cons]
      have hs : monStep MonState.render e = MonState.render := by
        cases e with
        | recv b => cases b <;> rfl
        | closeChan => rfl
      rw [hs, ih]
  refine ⟨rfl, ?_, by simp⟩
  intro evs
  exact hstick evs

/-- C7: one line's contribution is one descriptor per keyword that occurs in
the line (containment, not occurrence count) and one descriptor per pattern
whose first match is nonempty, recording that first match; so each keyword of
the list yields at most as many descriptors as its occurrences in the keyword
list (at most one, for a keyword listed once), and the regex descriptors
number at most one per pattern. -/
theorem perLine_at_most_one_per_entry (kws : List String) (res : List Regex)
    (t : String) (n : Nat) :
    matchLine kws res t n [] = lineHits kws res t n
    ∧ (∀ kw : String,
        (matchLine kws res t n []).countP (fun d => d == Desc.kw kw n)
          ≤ kws.count kw)
    ∧ (matchLine kws res t n []).countP
        (fun d => match d with | .re _ _ _ => true | .kw _ _ => false)
      ≤ res.length := by
  have he : matchLine kws res t n [] = lineHits kws res t n := by
    rw [matchLine_eq, List.nil_append]
  refine ⟨he, ?_, ?_⟩
  · intro kw
    rw [he]
    unfold lineHits
    rw [List.countP_append]
    have h2 : ((res.filter (fun r => r.find t != "")).map
        (fun r => Desc.re (r.find t) r.source n)).countP
        (fun d => d == Desc.kw kw n) = 0 := by
      rw [List.countP_eq_zero]
      intro d hd
      obtain ⟨r, _, rfl⟩ := List.mem_map.1 hd
      simp
    rw [h2, Nat.add_zero, ← List.count_eq_countP]
    have hinj : Function.Injective (fun kw' : String => Desc.kw kw' n) := by
      intro a b hab
      simpa using hab
    calc List.count (Desc.kw kw n)
          ((kws.filter (fun kw => strContains t kw)).map
            (fun kw' => Desc.kw kw' n))
        = List.count kw (kws.filter (fun kw => strContains t kw)) :=
          List.count_map_of_injective _ _ hinj kw
      _ ≤ List.count kw kws := (List.filter_sublist kws).count_le kw
  · rw [he]
    unfold lineHits
    rw [List.countP_append]
    have h1 : ((kws.filter (fun kw => strContains t kw)).map
        (fun kw => Desc.kw kw n)).countP
        (fun d => match d with | .re _ _ _ => true | .kw _ _ => false) = 0 := by
      rw [List.countP_eq_zero]
      intro d hd
      obtain ⟨kw, _, rfl⟩ := List.mem_map.1 hd
      simp
    rw [h1, Nat.zero_add]
    have hle1 : ((res.filter (fun r => r.find t != "")).map
          (fun r => Desc.re (r.find t) r.source n)).countP
          (fun d => match d with | .re _ _ _ => true | .kw _ _ => false)
        ≤ ((res.filter (fun r => r.find t != "")).map
          (fun r => Desc.re (r.find t) r.source n)).length :=
      List.countP_le_length _
    have hle2 : ((res.filter (fun r => r.find t != "")).map
          (fun r => Desc.re (r.find t) r.source n)).length ≤ res.length := by
      rw [List.length_map]
      exact List.length_filter_le _ _
    exact le_trans hle1 hle2

/-- C8: over a whole file the line numbers of the recorded descriptors are
non-decreasing, and the descriptors of line `i+1` are exactly the keyword
descriptors (in keyword-list order) followed by the regex descriptors (in
pattern-list order) of that line. -/
theorem scan_match_order (kws : List String) (res : List Regex)
    (lines : List String) :
    List.Chain' (fun a b => a ≤ b)
      ((scanLoop kws res lines 1 []).map Desc.line)
    ∧ ∀ i : Nat, i < lines.length →
        (scanLoop kws res lines 1 []).filter (fun d => d.line == i + 1)
          = ((kws.filter (fun kw => strContains (lines.getD i "") kw)).map
              (fun kw => Desc.kw kw (i + 1)))
            ++ ((res.filter (fun r => r.find (lines.getD i "") != "")).map
              (fun r => Desc.re (r.find (lines.getD i "")) r.source (i + 1))) := by
  have he : scanLoop kws res lines 1 [] = scanList kws res lines 1 := by
    rw [scanLoop_eq_scanList, List.nil_append]
  constructor
  · rw [he]
    exact scanList_chain kws res lines 1
  · intro i h
    rw [he]
    have hf := scanList_filter kws res lines 1 i h
    simp only [Nat.add_comm 1 i] at hf
    rw [hf]
    rfl

/-- Witness for C8: one line containing the keyword, filtered at line 1. -/
theorem scan_match_order_witness :
    0 < (["x ERROR y"] : List String).length
    ∧ (scanLoop ["ERROR"] ([] : List Regex) ["x ERROR y"] 1 []).filter
        (fun d => d.line == 0 + 1)
      = (((["ERROR"] : List String).filter
            (fun kw => strContains ((["x ERROR y"] : List String).getD 0 "") kw)).map
          (fun kw => Desc.kw kw (0 + 1)))
        ++ ((([] : List Regex).filter
            (fun r => r.find ((["x ERROR y"] : List String).getD 0 "") != "")).map
          (fun r => Desc.re (r.find ((["x ERROR y"] : List String).getD 0 ""))
            r.source (0 + 1))) :=
  ⟨by decide, (scan_match_order ["ERROR"] [] ["x ERROR y"]).2 0 (by decide)⟩

/-- C10: a pattern whose first match on a line is the empty string contributes
nothing — removing it from the pattern list leaves the line's descriptors
unchanged, exactly as for a non-matching pattern. -/
theorem emptyMatch_indistinguishable (kws : List String)
    (res1 res2 : List Regex) (r : Regex) (t : String) (n : Nat)
    (h : r.find t = "") :
    matchLine kws (res1 ++ r :: res2) t n []
      = matchLine kws (res1 ++ res2) t n [] := by
  rw [matchLine_eq, matchLine_eq, List.nil_append, List.nil_append]
  unfold lineHits
  have hb : (r.find t != "") = false := by simp [h]
  simp [List.filter_append, List.filter_cons, hb]

/-- Model of the Go regexp `a*`: its leftmost match in a string is the leading
run of `a`s — the empty string when the string does not start with `a`. -/
def aStar : Regex :=
  { source := "a*",
    find := fun s => String.mk (s.data.takeWhile (fun c => c == 'a')) }

/-- Witness for C10: on the line `xyz` the pattern `a*` first-matches the
empty string, and its presence in the pattern list changes nothing. -/
theorem emptyMatch_indistinguishable_witness :
    aStar.find "xyz" = ""
    ∧ matchLine [] [aStar] "xyz" 1 [] = matchLine [] [] "xyz" 1 [] :=
  ⟨rfl, emptyMatch_indistinguishable [] [] [] aStar "xyz" 1 rfl⟩

end GoFind
